import Mathlib

/-!
Shallow embedding of the `sept` module-assembly core
(`src/sept_core/lib/src/sept_module.rs`).

Modelling choices:
* `Ty` models Rust `TypeId`: `Ty.base n` is a plain capability type and
  `Ty.arc t` is the type identity of `Arc<T>` when `t` is the identity of `T`.
* A resolved shared instance is modelled by a numeric instance id; two
  places holding the same id model two clones of one shared `Arc`.
* `Graph` (crate `graph`, not part of the sources at hand) is modelled from
  the spec as an association list from token to instance id.
* Construction contracts (the `Injected` derive, external to the core) are
  a `Config` parameter: for a token, an optional dependency list.
* Fallible or potentially divergent recursion (module build, recursive
  resolution) is fuel-indexed: `none` models non-termination (fuel ran
  out), `some (.error e)` a reported failure, `some (.ok _)` success.
* A `Ctx` carries the `ApplicationContext` (global provider graph and the
  memo of built modules) plus an instance counter and an event trace used
  to observe construction side effects.
-/

namespace Sept

/-- Type identity (Rust `TypeId`): `arc t` is the identity of `Arc<T>`
when `t` is the identity of `T`. -/
inductive Ty where
  | base : Nat → Ty
  | arc : Ty → Ty
deriving DecidableEq

/-- Modelled from the spec: a `Graph` maps capability tokens to resolved,
shared instances; entries are kept in most-recently-inserted-first order,
and lookup takes the first match (so insertion shadows silently). -/
abbrev Graph := List (Ty × Nat)

/-- Observable build events: `built mid` records one execution of module
`mid`'s factory build, `providedVal t` one installation of a pre-built
value for `t`, `constructed t` one invocation of `t`'s builder function. -/
inductive Event where
  | built : Nat → Event
  | providedVal : Ty → Event
  | constructed : Ty → Event
deriving DecidableEq

/-- The immutable result of building a `Module` (from
`sept_module.rs`): its own graph, the imported resolved modules, the
exported subgraph and the resolved client instances. -/
inductive ResolvedModule where
  | mk : Graph → List ResolvedModule → Graph → List Nat → ResolvedModule

def ResolvedModule.graph : ResolvedModule → Graph
  | .mk g _ _ _ => g

def ResolvedModule.imports : ResolvedModule → List ResolvedModule
  | .mk _ is _ _ => is

def ResolvedModule.graphed_exports : ResolvedModule → Graph
  | .mk _ _ ge _ => ge

def ResolvedModule.clients : ResolvedModule → List Nat
  | .mk _ _ _ cs => cs

/-- `ResolvedModule::new()`. -/
def ResolvedModule.empty : ResolvedModule := .mk [] [] [] []

/-- `ApplicationContext` (global provider graph and the memo of built
modules) together with the bookkeeping the embedding needs: a fresh
instance counter and the event trace. -/
structure Ctx where
  global : Graph
  modules : List (Nat × ResolvedModule)
  cnt : Nat
  trace : List Event

/-- The `Module` builder: the deferred closures of the Rust source are
represented by the data each closure captures, one list per phase, in
declaration order. -/
structure ModuleB where
  exports : List Ty
  tokens : List Ty
  imports : List Nat
  providers : List Ty
  provider_vals : List Ty
  clients : List Ty

/-- `Module::new()`. -/
def ModuleB.new : ModuleB := ⟨[], [], [], [], [], []⟩

/-- The external collaborators: the construction contract (for a token,
its dependency list, if constructible) and the module factories
(`ModuleFactory::get_module`), keyed by module-type id. -/
structure Config where
  contract : Ty → Option (List Ty)
  factory : Nat → ModuleB

/-- Build-time failures, from the spec's error taxonomy. -/
inductive Err where
  | unresolvedCapability : Ty → Err
  | cyclicDependency : Ty → Err
deriving DecidableEq

/-- Modelled from the spec: `Graph::get_node` — read-only probe, first
match wins. -/
def lookupG : Graph → Ty → Option Nat
  | [], _ => none
  | (t', i) :: rest, t => if t' = t then some i else lookupG rest t

/-- First hit over a prioritized list of search graphs, in order. -/
def searchAll : List Graph → Ty → Option Nat
  | [], _ => none
  | g :: rest, t =>
    match lookupG g t with
    | some i => some i
    | none => searchAll rest t

/-- Memo lookup in `ApplicationContext::modules`. -/
def lookupMemo : List (Nat × ResolvedModule) → Nat → Option ResolvedModule
  | [], _ => none
  | (mid', r) :: rest, mid => if mid' = mid then some r else lookupMemo rest mid

/-- Modelled from the spec: `Graph::filter_by` — the subgraph of entries
whose token is in the export set, sharing the instances. -/
def filterBy : Graph → List Ty → Graph
  | [], _ => []
  | (t, i) :: rest, s =>
    if t ∈ s then (t, i) :: filterBy rest s else filterBy rest s

/-- `HashSet::insert`. -/
def insertSet (t : Ty) (s : List Ty) : List Ty := if t ∈ s then s else t :: s

/-- `Module::import::<T>`: records the imported module-type id. -/
def ModuleB.impM (m : ModuleB) (mid : Nat) : ModuleB :=
  { m with imports := m.imports ++ [mid] }

/-- `Module::export::<T>`: marks the type identity of `Arc<T>`. -/
def ModuleB.exportT (m : ModuleB) (t : Ty) : ModuleB :=
  { m with exports := insertSet (Ty.arc t) m.exports }

/-- `Module::export_val::<T>`: marks the type identity of `T` itself. -/
def ModuleB.export_val (m : ModuleB) (t : Ty) : ModuleB :=
  { m with exports := insertSet t m.exports }

/-- `Module::provide::<T>`: records a deferred resolution of `Arc<T>` and
adds `T` to the declared-token set. -/
def ModuleB.provide (m : ModuleB) (t : Ty) : ModuleB :=
  { m with providers := m.providers ++ [t], tokens := insertSet t m.tokens }

/-- `Module::provide_val::<T>`: records a deferred installation of a
pre-built value and adds `T` to the declared-token set. -/
def ModuleB.provide_val (m : ModuleB) (t : Ty) : ModuleB :=
  { m with provider_vals := m.provider_vals ++ [t],
           tokens := insertSet t m.tokens }

/-- `Module::client::<T>`: records a deferred client resolution and adds
`T` to the declared-token set. -/
def ModuleB.client (m : ModuleB) (t : Ty) : ModuleB :=
  { m with clients := m.clients ++ [t], tokens := insertSet t m.tokens }

/-- Error/fuel propagation: `none` (out of fuel) and reported errors
pass through, success feeds the continuation. -/
def andE {α β : Type} (x : Option (Except Err α)) (f : α → Option (Except Err β)) :
    Option (Except Err β) :=
  match x with
  | none => none
  | some (.error e) => some (.error e)
  | some (.ok a) => f a

/-- Resolve a dependency list in order, threading the graph and context
through `step` (the recursive single-token resolution). -/
def resolveDeps (step : Graph → Ty → Ctx → Option (Except Err (Graph × Ctx × Nat))) :
    List Ty → Graph → Ctx → Option (Except Err (Graph × Ctx))
  | [], g, ctx => some (.ok (g, ctx))
  | d :: rest, g, ctx =>
    andE (step g d ctx) (fun a => resolveDeps step rest a.1 a.2.1)

/-- Modelled from the spec: `Graph::resolve(token, search_graphs)`.
Returns the shared instance for the token: first match in this graph,
else first match over the search graphs in order, else constructs via
the external contract (resolving each dependency first, recursively,
against the same graph and search graphs), memoizing the fresh instance
into this graph. Fails with `UnresolvedCapability` when no pre-provided
instance and no contract exists, with `CyclicDependency` on re-entry.
Fuel exhaustion is `none`. -/
def resolveF (cfg : Config) : Nat → Graph → List Graph → List Ty → Ty → Ctx →
    Option (Except Err (Graph × Ctx × Nat))
  | 0, _, _, _, _, _ => none
  | fuel + 1, g, searches, seen, t, ctx =>
    match lookupG g t with
    | some i => some (.ok (g, ctx, i))
    | none =>
      match searchAll searches t with
      | some i => some (.ok (g, ctx, i))
      | none =>
        if t ∈ seen then some (.error (.cyclicDependency t))
        else
          match cfg.contract t with
          | none => some (.error (.unresolvedCapability t))
          | some deps =>
            andE (resolveDeps
                (fun g' d c => resolveF cfg fuel g' searches (t :: seen) d c)
                deps g ctx)
              (fun a => some (.ok ((t, a.2.cnt) :: a.1,
                { a.2 with cnt := a.2.cnt + 1,
                           trace := a.2.trace ++ [Event.constructed t] },
                a.2.cnt)))

/-- Phase 2 of `Module::build`: install the provided values. A value for
`T` was wrapped in `Arc::new` by `provide_val`, so it is stored under the
token of `Arc<T>`; installation never fails. -/
def valGo : List Ty → ResolvedModule → Ctx → ResolvedModule × Ctx
  | [], r, ctx => (r, ctx)
  | t :: rest, r, ctx =>
    valGo rest
      (.mk ((Ty.arc t, ctx.cnt) :: r.graph) r.imports r.graphed_exports r.clients)
      { ctx with cnt := ctx.cnt + 1, trace := ctx.trace ++ [Event.providedVal t] }

/-- Phase 3 of `Module::build`: resolve each declared provider `T` as
`Arc<T>` against the module's own graph, searching the global provider
graph and then every import's exported subgraph, in declaration order. -/
def providerGo (cfg : Config) (fuel : Nat) :
    List Ty → ResolvedModule → Ctx → Option (Except Err (ResolvedModule × Ctx))
  | [], r, ctx => some (.ok (r, ctx))
  | t :: rest, r, ctx =>
    andE (resolveF cfg fuel r.graph
        (ctx.global :: r.imports.map ResolvedModule.graphed_exports)
        [] (Ty.arc t) ctx)
      (fun a =>
        providerGo cfg fuel rest
          (.mk a.1 r.imports r.graphed_exports r.clients) a.2.1)

/-- Phase 4 of `Module::build`: resolve each declared client `T` the same
way and append the resolved shared instance to the client list. -/
def clientGo (cfg : Config) (fuel : Nat) :
    List Ty → ResolvedModule → Ctx → Option (Except Err (ResolvedModule × Ctx))
  | [], r, ctx => some (.ok (r, ctx))
  | t :: rest, r, ctx =>
    andE (resolveF cfg fuel r.graph
        (ctx.global :: r.imports.map ResolvedModule.graphed_exports)
        [] (Ty.arc t) ctx)
      (fun a =>
        clientGo cfg fuel rest
          (.mk a.1 r.imports r.graphed_exports (r.clients ++ [a.2.2])) a.2.1)

/-- Phase 1 of `Module::build`: for each declared import, reuse the
memoized resolved module if the context already holds one, otherwise
build it through `step` (the recursive module build), register it in the
memo, record the build event, and push it onto the import list. -/
def impGo (step : ModuleB → Ctx → Option (Except Err (ResolvedModule × Ctx)))
    (factory : Nat → ModuleB) :
    List Nat → ResolvedModule → Ctx → Option (Except Err (ResolvedModule × Ctx))
  | [], r, ctx => some (.ok (r, ctx))
  | mid :: rest, r, ctx =>
    match lookupMemo ctx.modules mid with
    | some rm =>
      impGo step factory rest
        (.mk r.graph (r.imports ++ [rm]) r.graphed_exports r.clients) ctx
    | none =>
      andE (step (factory mid) ctx)
        (fun a =>
          impGo step factory rest
            (.mk r.graph (r.imports ++ [a.1]) r.graphed_exports r.clients)
            { a.2 with modules := (mid, a.1) :: a.2.modules,
                       trace := a.2.trace ++ [Event.built mid] })

/-- `Module::build(ctx)`: the four phases in order — imports, provided
values, providers, clients — then the exported subgraph via `filter_by`
over the marked export tokens. Fuel bounds the module-build recursion
through imports; `none` models non-termination. -/
def buildM (cfg : Config) : Nat → ModuleB → Ctx →
    Option (Except Err (ResolvedModule × Ctx))
  | 0, _, _ => none
  | fuel + 1, m, ctx =>
    andE (impGo (fun m' c => buildM cfg fuel m' c) cfg.factory m.imports
        ResolvedModule.empty ctx)
      (fun a =>
        let p := valGo m.provider_vals a.1 a.2
        andE (providerGo cfg (fuel + 1) m.providers p.1 p.2)
          (fun b =>
            andE (clientGo cfg (fuel + 1) m.clients b.1 b.2)
              (fun c => some (.ok (.mk c.1.graph c.1.imports
                (filterBy c.1.graph m.exports) c.1.clients, c.2)))))

/-- The empty assembly context: no global providers, empty memo. -/
def ctx0 : Ctx := ⟨[], [], 0, []⟩

/-- Number of `built mid` events in a trace: how often module `mid`'s
factory build was executed. -/
def builtCount (mid : Nat) (tr : List Event) : Nat :=
  tr.countP (fun e => match e with | .built m => m == mid | _ => false)

/-- The context of a successful build result. -/
def resCtx : Option (Except Err (ResolvedModule × Ctx)) → Option Ctx
  | some (.ok (_, c)) => some c
  | _ => none

/-- The resolved module of a successful build result. -/
def resRM : Option (Except Err (ResolvedModule × Ctx)) → Option ResolvedModule
  | some (.ok (r, _)) => some r
  | _ => none

/-- Whether a build result is a success. -/
def isOkB : Option (Except Err (ResolvedModule × Ctx)) → Bool
  | some (.ok _) => true
  | _ => false

/-- Token of the diamond scenario's capability. -/
def tA : Ty := Ty.base 0

/-- Diamond scenario: module 0 (`A`) provides and exports `tA`; modules
1 (`B`) and 2 (`C`) both import module 0. `Arc<tA>` is constructible
with no dependencies. -/
def diamondCfg : Config :=
  { contract := fun t => if t = Ty.arc tA then some [] else none,
    factory := fun mid =>
      if mid = 0 then (ModuleB.new.provide tA).exportT tA
      else if mid = 1 then ModuleB.new.impM 0
      else if mid = 2 then ModuleB.new.impM 0
      else ModuleB.new }

/-- Diamond scenario: the parent module importing `B` then `C`. -/
def diamondRoot : ModuleB := (ModuleB.new.impM 1).impM 2

/-- Import-cycle scenario: module 0 imports module 1 and module 1
imports module 0; no capability contracts. -/
def cycleCfg : Config :=
  { contract := fun _ => none,
    factory := fun mid =>
      if mid = 0 then ModuleB.new.impM 1 else ModuleB.new.impM 0 }

/-- Unresolved-capability scenario: `Arc<T>` (`T = base 1`) requires
`Arc<V>` (`V = base 2`), which requires `Arc<U>` (`U = base 3`); `U` has
no contract and is provided nowhere. -/
def chainCfg : Config :=
  { contract := fun t =>
      if t = Ty.arc (Ty.base 1) then some [Ty.arc (Ty.base 2)]
      else if t = Ty.arc (Ty.base 2) then some [Ty.arc (Ty.base 3)]
      else none,
    factory := fun _ => ModuleB.new }

/-- Duplicate-registration scenario: `Arc<T>` (`T = base 1`) is
constructible with no dependencies. -/
def dupCfg : Config :=
  { contract := fun t => if t = Ty.arc (Ty.base 1) then some [] else none,
    factory := fun _ => ModuleB.new }

/-- A module declaring the same provider token twice. -/
def dupModule : ModuleB := (ModuleB.new.provide (Ty.base 1)).provide (Ty.base 1)

/-! ## Shared lemmas -/

/-- The type identity of `Arc<T>` differs from that of `T`. -/
theorem ty_arc_ne (t : Ty) : Ty.arc t ≠ t := by
  induction t with
  | base n => intro h; exact Ty.noConfusion h
  | arc s ih => intro h; exact ih (by injection h)

/-- Lookup into a filtered graph: exactly the exported entries remain,
with the same shared instance ids. -/
theorem lookupG_filterBy (g : Graph) (s : List Ty) (tok : Ty) :
    lookupG (filterBy g s) tok = if tok ∈ s then lookupG g tok else none := by
  induction g with
  | nil => simp [filterBy, lookupG]
  | cons p rest ih =>
    obtain ⟨t, i⟩ := p
    by_cases hts : t ∈ s
    · by_cases htt : t = tok
      · subst htt; simp [filterBy, lookupG, hts]
      · simp [filterBy, lookupG, hts, htt, ih]
    · by_cases htt : t = tok
      · subst htt; simp [filterBy, lookupG, hts, ih]
      · simp [filterBy, lookupG, hts, htt, ih]

/-- Inversion for successful error propagation. -/
theorem andE_ok {α β : Type} {x : Option (Except Err α)}
    {f : α → Option (Except Err β)} {z : β} (h : andE x f = some (.ok z)) :
    ∃ a, x = some (.ok a) ∧ f a = some (.ok z) := by
  cases x with
  | none => simp [andE] at h
  | some ex =>
    cases ex with
    | error e => simp [andE] at h
    | ok a => exact ⟨a, rfl, h⟩

/-- Inversion for propagated errors. -/
theorem andE_err {α β : Type} {x : Option (Except Err α)}
    {f : α → Option (Except Err β)} {e : Err} (h : andE x f = some (.error e)) :
    x = some (.error e) ∨ ∃ a, x = some (.ok a) ∧ f a = some (.error e) := by
  cases x with
  | none => simp [andE] at h
  | some ex =>
    cases ex with
    | error e' => exact Or.inl (by simpa [andE] using h)
    | ok a => exact Or.inr ⟨a, rfl, by simpa [andE] using h⟩

/-- If a module's first declared import is not memoized and its factory
build runs out of fuel, the whole build runs out of fuel. -/
theorem buildM_import_fuel (cfg : Config) (f : Nat) (m : ModuleB) (ctx : Ctx)
    (mid : Nat) (rest : List Nat)
    (him : m.imports = mid :: rest)
    (hmemo : lookupMemo ctx.modules mid = none)
    (hb : buildM cfg f (cfg.factory mid) ctx = none) :
    buildM cfg (f + 1) m ctx = none := by
  simp only [buildM, him, impGo, hmemo, hb, andE]

/-- Import-cycle auxiliary: with modules 0 and 1 importing each other and
an empty memo, neither build terminates at any fuel. -/
theorem cycle_aux (fuel : Nat) :
    buildM cycleCfg fuel (ModuleB.new.impM 1) ctx0 = none ∧
    buildM cycleCfg fuel (ModuleB.new.impM 0) ctx0 = none := by
  induction fuel with
  | zero => exact ⟨rfl, rfl⟩
  | succ f ih =>
    exact ⟨buildM_import_fuel cycleCfg f _ ctx0 1 [] rfl rfl ih.2,
           buildM_import_fuel cycleCfg f _ ctx0 0 [] rfl rfl ih.1⟩

/-! ## Claims -/

/-- C10: `export::<T>` marks the type identity of `Arc<T>` while
`export_val::<T>` marks the type identity of `T` itself; since
`Arc<T>`'s identity is never equal to `T`'s, the two marking operations
never mark the same token for the same `T`, and a value installed by
`provide_val` (stored wrapped in `Arc`, hence under `Arc<T>`'s token) is
marked by `export_val` under a different token identity than the one it
is stored under. -/
theorem c10_export_token_identities :
    ∀ (m : ModuleB) (t : Ty) (r : ResolvedModule) (ctx : Ctx),
      (m.exportT t).exports = insertSet (Ty.arc t) m.exports ∧
      (m.export_val t).exports = insertSet t m.exports ∧
      Ty.arc t ≠ t ∧
      lookupG ((valGo [t] r ctx).1.graph) (Ty.arc t) = some ctx.cnt := by
  intro m t r ctx
  refine ⟨rfl, rfl, ty_arc_ne t, ?_⟩
  simp [valGo, lookupG]

/-- C9: the builder records declared tokens in a set but `build` never
consults it — the build result is independent of the `tokens` field — so
declaring the same capability token more than once is silent: the
duplicate-provider module builds successfully through all four phases. -/
theorem c9_tokens_never_checked :
    (∀ (cfg : Config) (fuel : Nat) (m : ModuleB) (ctx : Ctx) (tks : List Ty),
      buildM cfg fuel { m with tokens := tks } ctx = buildM cfg fuel m ctx) ∧
    isOkB (buildM dupCfg 3 dupModule ctx0) = true := by
  constructor
  · intro cfg fuel m ctx tks
    cases fuel <;> rfl
  · rfl

/-- C6: with modules 0 and 1 importing each other, building module 0
never terminates: for every fuel bound the build exhausts its fuel
(`none`), and in particular no `ModuleImportCycle` (or any other) error
is ever reported. -/
theorem c6_import_cycle_diverges :
    ∀ fuel : Nat, buildM cycleCfg fuel (cycleCfg.factory 0) ctx0 = none :=
  fun fuel => (cycle_aux fuel).1

/-- C3: resolution consults the module's own graph first, then the
search graphs in order with first match winning; and during build the
search graphs for a provider or client are exactly the global provider
graph followed by each imported module's exported subgraph in
import-declaration order. -/
theorem c3_search_order :
    (∀ (cfg : Config) (fuel : Nat) (g : Graph) (ss : List Graph)
        (seen : List Ty) (t : Ty) (ctx : Ctx) (i : Nat),
      lookupG g t = some i →
      resolveF cfg (fuel + 1) g ss seen t ctx = some (.ok (g, ctx, i))) ∧
    (∀ (cfg : Config) (fuel : Nat) (g : Graph) (ss : List Graph)
        (seen : List Ty) (t : Ty) (ctx : Ctx) (i : Nat),
      lookupG g t = none → searchAll ss t = some i →
      resolveF cfg (fuel + 1) g ss seen t ctx = some (.ok (g, ctx, i))) ∧
    (∀ (gs₁ : List Graph) (g : Graph) (gs₂ : List Graph) (t : Ty) (i : Nat),
      (∀ g' ∈ gs₁, lookupG g' t = none) → lookupG g t = some i →
      searchAll (gs₁ ++ g :: gs₂) t = some i) ∧
    (∀ (cfg : Config) (fuel : Nat) (t : Ty) (rest : List Ty)
        (r : ResolvedModule) (ctx : Ctx),
      providerGo cfg fuel (t :: rest) r ctx =
        andE (resolveF cfg fuel r.graph
            (ctx.global :: r.imports.map ResolvedModule.graphed_exports)
            [] (Ty.arc t) ctx)
          (fun a => providerGo cfg fuel rest
            (.mk a.1 r.imports r.graphed_exports r.clients) a.2.1) ∧
      clientGo cfg fuel (t :: rest) r ctx =
        andE (resolveF cfg fuel r.graph
            (ctx.global :: r.imports.map ResolvedModule.graphed_exports)
            [] (Ty.arc t) ctx)
          (fun a => clientGo cfg fuel rest
            (.mk a.1 r.imports r.graphed_exports (r.clients ++ [a.2.2])) a.2.1)) := by
  refine ⟨?_, ?_, ?_, ?_⟩
  · intro cfg fuel g ss seen t ctx i h
    simp [resolveF, h]
  · intro cfg fuel g ss seen t ctx i h₁ h₂
    simp [resolveF, h₁, h₂]
  · intro gs₁ g gs₂ t i hnone hg
    induction gs₁ with
    | nil => simp [searchAll, hg]
    | cons g' rest ih =>
      have h' : lookupG g' t = none := hnone g' (by simp)
      simp only [List.cons_append, searchAll, h']
      exact ih (fun g'' hmem => hnone g'' (by simp [hmem]))
  · intro cfg fuel t rest r ctx
    exact ⟨rfl, rfl⟩

/-- C7: singleton-per-graph — once a token has been resolved within a
graph (yielding instance `i` and updated graph `g'`), every subsequent
resolution of that token against `g'`, with the same search graphs,
returns the same shared instance `i` without changing the graph and
without constructing anything. -/
theorem c7_singleton_per_graph :
    ∀ (cfg : Config) (fuel : Nat) (g : Graph) (ss : List Graph)
      (seen : List Ty) (t : Ty) (ctx : Ctx) (g' : Graph) (ctx' : Ctx) (i : Nat),
      resolveF cfg fuel g ss seen t ctx = some (.ok (g', ctx', i)) →
      ∀ (fuel₂ : Nat) (seen₂ : List Ty) (ctx₂ : Ctx),
        resolveF cfg (fuel₂ + 1) g' ss seen₂ t ctx₂ = some (.ok (g', ctx₂, i)) := by
  intro cfg fuel g ss seen t ctx g' ctx' i h fuel₂ seen₂ ctx₂
  match fuel with
  | 0 => simp [resolveF] at h
  | f + 1 =>
    simp only [resolveF] at h
    cases hl : lookupG g t with
    | some j =>
      rw [hl] at h
      simp only [Option.some.injEq, Except.ok.injEq, Prod.mk.injEq] at h
      obtain ⟨hg, _, hi⟩ := h
      subst hg; subst hi
      simp [resolveF, hl]
    | none =>
      rw [hl] at h
      cases hs : searchAll ss t with
      | some j =>
        rw [hs] at h
        simp only [Option.some.injEq, Except.ok.injEq, Prod.mk.injEq] at h
        obtain ⟨hg, _, hi⟩ := h
        subst hg; subst hi
        simp [resolveF, hl, hs]
      | none =>
        rw [hs] at h
        by_cases hseen : t ∈ seen
        · simp [hseen] at h
        · simp only [if_neg hseen] at h
          cases hc : cfg.contract t with
          | none => rw [hc] at h; simp at h
          | some deps =>
            rw [hc] at h
            obtain ⟨a, _, ha⟩ := andE_ok h
            simp only [Option.some.injEq, Except.ok.injEq, Prod.mk.injEq] at ha
            obtain ⟨hg, _, hi⟩ := ha
            subst hg; subst hi
            simp [resolveF, lookupG]

/-- Phase 2 changes only the module graph: imports, clients and the
exported subgraph of the partial `ResolvedModule` are untouched. -/
theorem valGo_rm (ts : List Ty) (r : ResolvedModule) (ctx : Ctx) :
    (valGo ts r ctx).1.imports = r.imports ∧
    (valGo ts r ctx).1.clients = r.clients ∧
    (valGo ts r ctx).1.graphed_exports = r.graphed_exports := by
  induction ts generalizing r ctx with
  | nil => exact ⟨rfl, rfl, rfl⟩
  | cons t rest ih => simpa [valGo] using ih _ _

/-- Phase 3 changes only the module graph: imports, clients and the
exported subgraph are untouched. -/
theorem providerGo_rm (cfg : Config) (fuel : Nat) :
    ∀ (ts : List Ty) (r : ResolvedModule) (ctx : Ctx) (r' : ResolvedModule) (ctx' : Ctx),
      providerGo cfg fuel ts r ctx = some (.ok (r', ctx')) →
      r'.imports = r.imports ∧ r'.clients = r.clients ∧
      r'.graphed_exports = r.graphed_exports := by
  intro ts
  induction ts with
  | nil =>
    intro r ctx r' ctx' h
    simp only [providerGo, Option.some.injEq, Except.ok.injEq, Prod.mk.injEq] at h
    obtain ⟨hr, _⟩ := h
    subst hr; exact ⟨rfl, rfl, rfl⟩
  | cons t rest ih =>
    intro r ctx r' ctx' h
    simp only [providerGo] at h
    obtain ⟨a, _, ha⟩ := andE_ok h
    have := ih (ResolvedModule.mk a.1 r.imports r.graphed_exports r.clients) a.2.1 r' ctx' ha
    simpa [ResolvedModule.imports, ResolvedModule.clients,
      ResolvedModule.graphed_exports] using this

/-- Phase 4 leaves imports and the exported subgraph untouched and
appends exactly one resolved instance per client declaration, in
declaration order. -/
theorem clientGo_rm (cfg : Config) (fuel : Nat) :
    ∀ (ts : List Ty) (r : ResolvedModule) (ctx : Ctx) (r' : ResolvedModule) (ctx' : Ctx),
      clientGo cfg fuel ts r ctx = some (.ok (r', ctx')) →
      r'.imports = r.imports ∧ r'.graphed_exports = r.graphed_exports ∧
      ∃ is, r'.clients = r.clients ++ is ∧ is.length = ts.length := by
  intro ts
  induction ts with
  | nil =>
    intro r ctx r' ctx' h
    simp only [clientGo, Option.some.injEq, Except.ok.injEq, Prod.mk.injEq] at h
    obtain ⟨hr, _⟩ := h
    subst hr; exact ⟨rfl, rfl, [], by simp⟩
  | cons t rest ih =>
    intro r ctx r' ctx' h
    simp only [clientGo] at h
    obtain ⟨a, _, ha⟩ := andE_ok h
    obtain ⟨h₁, h₂, is, h₃, h₄⟩ :=
      ih (ResolvedModule.mk a.1 r.imports r.graphed_exports (r.clients ++ [a.2.2]))
        a.2.1 r' ctx' ha
    refine ⟨h₁, h₂, a.2.2 :: is, ?_, by simp [h₄]⟩
    simpa [ResolvedModule.clients, List.append_assoc] using h₃

/-- Phase 1 leaves the module graph, clients and the exported subgraph
untouched and appends one resolved module per declared import. -/
theorem impGo_rm (step : ModuleB → Ctx → Option (Except Err (ResolvedModule × Ctx)))
    (factory : Nat → ModuleB) :
    ∀ (mids : List Nat) (r : ResolvedModule) (ctx : Ctx)
      (r' : ResolvedModule) (ctx' : Ctx),
      impGo step factory mids r ctx = some (.ok (r', ctx')) →
      r'.graph = r.graph ∧ r'.clients = r.clients ∧
      r'.graphed_exports = r.graphed_exports ∧
      ∃ rs, r'.imports = r.imports ++ rs ∧ rs.length = mids.length := by
  intro mids
  induction mids with
  | nil =>
    intro r ctx r' ctx' h
    simp only [impGo, Option.some.injEq, Except.ok.injEq, Prod.mk.injEq] at h
    obtain ⟨hr, _⟩ := h
    subst hr; exact ⟨rfl, rfl, rfl, [], by simp⟩
  | cons mid rest ih =>
    intro r ctx r' ctx' h
    simp only [impGo] at h
    cases hm : lookupMemo ctx.modules mid with
    | some rm =>
      rw [hm] at h
      obtain ⟨h₁, h₂, h₃, rs, h₄, h₅⟩ := ih _ _ _ _ h
      exact ⟨h₁, h₂, h₃, rm :: rs,
        by simpa [ResolvedModule.imports, List.append_assoc] using h₄, by simp [h₅]⟩
    | none =>
      rw [hm] at h
      obtain ⟨a, _, ha⟩ := andE_ok h
      obtain ⟨h₁, h₂, h₃, rs, h₄, h₅⟩ := ih _ _ _ _ ha
      exact ⟨h₁, h₂, h₃, a.1 :: rs,
        by simpa [ResolvedModule.imports, List.append_assoc] using h₄, by simp [h₅]⟩

/-- A successful build computes its exported subgraph by `filter_by`
over the marked export tokens, applied to the final module graph. -/
theorem build_graphed_exports (cfg : Config) (fuel : Nat) (m : ModuleB) (ctx : Ctx)
    (r : ResolvedModule) (ctx' : Ctx)
    (h : buildM cfg fuel m ctx = some (.ok (r, ctx'))) :
    r.graphed_exports = filterBy r.graph m.exports := by
  match fuel with
  | 0 => simp [buildM] at h
  | f + 1 =>
    simp only [buildM] at h
    obtain ⟨a, _, h⟩ := andE_ok h
    obtain ⟨b, _, h⟩ := andE_ok h
    obtain ⟨c, _, h⟩ := andE_ok h
    simp only [Option.some.injEq, Except.ok.injEq, Prod.mk.injEq] at h
    obtain ⟨hr, _⟩ := h
    subst hr
    rfl

/-- A successful build resolves exactly one client instance per client
declaration. -/
theorem build_clients_len (cfg : Config) (fuel : Nat) (m : ModuleB) (ctx : Ctx)
    (r : ResolvedModule) (ctx' : Ctx)
    (h : buildM cfg fuel m ctx = some (.ok (r, ctx'))) :
    r.clients.length = m.clients.length := by
  match fuel with
  | 0 => simp [buildM] at h
  | f + 1 =>
    simp only [buildM] at h
    obtain ⟨a, ha, h⟩ := andE_ok h
    obtain ⟨b, hb, h⟩ := andE_ok h
    obtain ⟨c, hc, h⟩ := andE_ok h
    have himp := impGo_rm _ _ _ _ _ _ _ ha
    have hval := valGo_rm m.provider_vals a.1 a.2
    have hprov := providerGo_rm _ _ _ _ _ _ _ hb
    have hcli := clientGo_rm _ _ _ _ _ _ _ hc
    simp only [Option.some.injEq, Except.ok.injEq, Prod.mk.injEq] at h
    obtain ⟨hr, _⟩ := h
    subst hr
    obtain ⟨_, _, is, hc3, hc4⟩ := hcli
    have hb1 : b.1.clients = ([] : List Nat) := by
      rw [hprov.2.1, hval.2.1, himp.2.1]
      rfl
    show c.1.clients.length = m.clients.length
    rw [hc3, hb1]
    simpa using hc4

/-- Inserting an entry preserves the presence of every token. -/
theorem lookupG_cons_isSome (g : Graph) (t : Ty) (i : Nat) (x : Ty)
    (h : (lookupG g x).isSome = true) :
    (lookupG ((t, i) :: g) x).isSome = true := by
  by_cases ht : t = x
  · simp [lookupG, ht]
  · simpa [lookupG, ht] using h

/-- Dependency resolution only adds graph entries: presence of a token
is preserved, provided the single-token step preserves it. -/
theorem resolveDeps_mono
    (step : Graph → Ty → Ctx → Option (Except Err (Graph × Ctx × Nat)))
    (Hstep : ∀ g d c g' c' i, step g d c = some (.ok (g', c', i)) →
      ∀ x, (lookupG g x).isSome = true → (lookupG g' x).isSome = true) :
    ∀ (ds : List Ty) (g : Graph) (ctx : Ctx) (g₂ : Graph) (ctx₂ : Ctx),
      resolveDeps step ds g ctx = some (.ok (g₂, ctx₂)) →
      ∀ x, (lookupG g x).isSome = true → (lookupG g₂ x).isSome = true := by
  intro ds
  induction ds with
  | nil =>
    intro g ctx g₂ ctx₂ h x hx
    simp only [resolveDeps, Option.some.injEq, Except.ok.injEq, Prod.mk.injEq] at h
    obtain ⟨hg, _⟩ := h
    subst hg; exact hx
  | cons d rest ih =>
    intro g ctx g₂ ctx₂ h x hx
    simp only [resolveDeps] at h
    obtain ⟨a, hok, hrest⟩ := andE_ok h
    exact ih a.1 a.2.1 g₂ ctx₂ hrest x
      (Hstep g d ctx a.1 a.2.1 a.2.2 hok x hx)

/-- Resolution only adds graph entries: presence of a token is
preserved by a successful `resolve`. -/
theorem resolveF_mono (cfg : Config) :
    ∀ (fuel : Nat) (g : Graph) (ss : List Graph) (seen : List Ty) (t : Ty)
      (ctx : Ctx) (g' : Graph) (ctx' : Ctx) (i : Nat),
      resolveF cfg fuel g ss seen t ctx = some (.ok (g', ctx', i)) →
      ∀ x, (lookupG g x).isSome = true → (lookupG g' x).isSome = true := by
  intro fuel
  induction fuel with
  | zero =>
    intro g ss seen t ctx g' ctx' i h
    simp [resolveF] at h
  | succ f ih =>
    intro g ss seen t ctx g' ctx' i h x hx
    simp only [resolveF] at h
    cases hl : lookupG g t with
    | some j =>
      rw [hl] at h
      simp only [Option.some.injEq, Except.ok.injEq, Prod.mk.injEq] at h
      obtain ⟨hg, _⟩ := h
      subst hg; exact hx
    | none =>
      rw [hl] at h
      cases hs : searchAll ss t with
      | some j =>
        rw [hs] at h
        simp only [Option.some.injEq, Except.ok.injEq, Prod.mk.injEq] at h
        obtain ⟨hg, _⟩ := h
        subst hg; exact hx
      | none =>
        rw [hs] at h
        by_cases hseen : t ∈ seen
        · simp [hseen] at h
        · simp only [if_neg hseen] at h
          cases hc : cfg.contract t with
          | none => rw [hc] at h; simp at h
          | some deps =>
            rw [hc] at h
            obtain ⟨a, hdeps, ha⟩ := andE_ok h
            simp only [Option.some.injEq, Except.ok.injEq, Prod.mk.injEq] at ha
            obtain ⟨hg, _⟩ := ha
            subst hg
            exact lookupG_cons_isSome _ _ _ _
              (resolveDeps_mono _ (fun g₁ d c g₂ c₂ i₂ h₁ =>
                ih g₁ ss (t :: seen) d c g₂ c₂ i₂ h₁) deps g ctx a.1 a.2 hdeps x hx)

/-- Dependency resolution reports `UnresolvedCapability u` only for a
genuinely missing token, provided the single-token step does. -/
theorem resolveDeps_unres
    (step : Graph → Ty → Ctx → Option (Except Err (Graph × Ctx × Nat)))
    (P : Ty → Prop)
    (Hmono : ∀ g d c g' c' i, step g d c = some (.ok (g', c', i)) →
      ∀ x, (lookupG g x).isSome = true → (lookupG g' x).isSome = true)
    (Hname : ∀ g d c u, step g d c = some (.error (.unresolvedCapability u)) →
      P u ∧ lookupG g u = none) :
    ∀ (ds : List Ty) (g : Graph) (ctx : Ctx) (u : Ty),
      resolveDeps step ds g ctx = some (.error (.unresolvedCapability u)) →
      P u ∧ lookupG g u = none := by
  intro ds
  induction ds with
  | nil =>
    intro g ctx u h
    simp [resolveDeps] at h
  | cons d rest ih =>
    intro g ctx u h
    simp only [resolveDeps] at h
    rcases andE_err h with herr | ⟨a, hok, hrest⟩
    · exact Hname g d ctx u herr
    · obtain ⟨hp, habs⟩ := ih a.1 a.2.1 u hrest
      refine ⟨hp, ?_⟩
      by_cases hg : lookupG g u = none
      · exact hg
      · exfalso
        have hsome : (lookupG g u).isSome = true := by
          cases hlu : lookupG g u with
          | none => exact absurd hlu hg
          | some v => rfl
        have := Hmono g d ctx a.1 a.2.1 a.2.2 hok u hsome
        rw [habs] at this
        simp at this

/-- `resolve` reports `UnresolvedCapability u` only when `u` truly has
no construction contract, no instance in the consulted graph, and no
instance in any search graph — so the failure names the genuinely
unresolvable capability, not the token whose construction required
it. -/
theorem resolveF_unres (cfg : Config) :
    ∀ (fuel : Nat) (g : Graph) (ss : List Graph) (seen : List Ty) (t : Ty)
      (ctx : Ctx) (u : Ty),
      resolveF cfg fuel g ss seen t ctx = some (.error (.unresolvedCapability u)) →
      cfg.contract u = none ∧ lookupG g u = none ∧ searchAll ss u = none := by
  intro fuel
  induction fuel with
  | zero =>
    intro g ss seen t ctx u h
    simp [resolveF] at h
  | succ f ih =>
    intro g ss seen t ctx u h
    simp only [resolveF] at h
    cases hl : lookupG g t with
    | some j => rw [hl] at h; simp at h
    | none =>
      rw [hl] at h
      cases hs : searchAll ss t with
      | some j => rw [hs] at h; simp at h
      | none =>
        rw [hs] at h
        by_cases hseen : t ∈ seen
        · simp [hseen] at h
        · simp only [if_neg hseen] at h
          cases hc : cfg.contract t with
          | none =>
            rw [hc] at h
            simp only [Option.some.injEq, Except.error.injEq,
              Err.unresolvedCapability.injEq] at h
            subst h
            exact ⟨hc, hl, hs⟩
          | some deps =>
            rw [hc] at h
            rcases andE_err h with herr | ⟨a, _, hfa⟩
            · have := resolveDeps_unres _
                (fun u' => cfg.contract u' = none ∧ searchAll ss u' = none)
                (fun g₁ d c g₂ c₂ i₂ h₁ =>
                  resolveF_mono cfg f g₁ ss (t :: seen) d c g₂ c₂ i₂ h₁)
                (fun g₁ d c u' h₁ => by
                  obtain ⟨h₁c, h₁g, h₁s⟩ := ih g₁ ss (t :: seen) d c u' h₁
                  exact ⟨⟨h₁c, h₁s⟩, h₁g⟩)
                deps g ctx u herr
              exact ⟨this.1.1, this.2, this.1.2⟩
            · simp at hfa

/-- Phase 1 propagates `UnresolvedCapability` errors of the recursive
module builds. -/
theorem impGo_err (step : ModuleB → Ctx → Option (Except Err (ResolvedModule × Ctx)))
    (factory : Nat → ModuleB) (Q : Ty → Prop)
    (Hstep : ∀ m c u, step m c = some (.error (.unresolvedCapability u)) → Q u) :
    ∀ (mids : List Nat) (r : ResolvedModule) (ctx : Ctx) (u : Ty),
      impGo step factory mids r ctx = some (.error (.unresolvedCapability u)) → Q u := by
  intro mids
  induction mids with
  | nil => intro r ctx u h; simp [impGo] at h
  | cons mid rest ih =>
    intro r ctx u h
    simp only [impGo] at h
    cases hm : lookupMemo ctx.modules mid with
    | some rm => rw [hm] at h; exact ih _ _ u h
    | none =>
      rw [hm] at h
      rcases andE_err h with herr | ⟨a, _, hrest⟩
      · exact Hstep _ _ u herr
      · exact ih _ _ u hrest

/-- Phase 3 reports `UnresolvedCapability u` only when `u` has no
construction contract. -/
theorem providerGo_unres (cfg : Config) (fuel : Nat) :
    ∀ (ts : List Ty) (r : ResolvedModule) (ctx : Ctx) (u : Ty),
      providerGo cfg fuel ts r ctx = some (.error (.unresolvedCapability u)) →
      cfg.contract u = none := by
  intro ts
  induction ts with
  | nil => intro r ctx u h; simp [providerGo] at h
  | cons t rest ih =>
    intro r ctx u h
    simp only [providerGo] at h
    rcases andE_err h with herr | ⟨a, _, hrest⟩
    · exact (resolveF_unres cfg fuel _ _ _ _ _ u herr).1
    · exact ih _ _ u hrest

/-- Phase 4 reports `UnresolvedCapability u` only when `u` has no
construction contract. -/
theorem clientGo_unres (cfg : Config) (fuel : Nat) :
    ∀ (ts : List Ty) (r : ResolvedModule) (ctx : Ctx) (u : Ty),
      clientGo cfg fuel ts r ctx = some (.error (.unresolvedCapability u)) →
      cfg.contract u = none := by
  intro ts
  induction ts with
  | nil => intro r ctx u h; simp [clientGo] at h
  | cons t rest ih =>
    intro r ctx u h
    simp only [clientGo] at h
    rcases andE_err h with herr | ⟨a, _, hrest⟩
    · exact (resolveF_unres cfg fuel _ _ _ _ _ u herr).1
    · exact ih _ _ u hrest

/-- `build` surfaces `UnresolvedCapability u` to its caller only for a
capability `u` that has no construction contract. -/
theorem buildM_unres (cfg : Config) :
    ∀ (fuel : Nat) (m : ModuleB) (ctx : Ctx) (u : Ty),
      buildM cfg fuel m ctx = some (.error (.unresolvedCapability u)) →
      cfg.contract u = none := by
  intro fuel
  induction fuel with
  | zero => intro m ctx u h; simp [buildM] at h
  | succ f ih =>
    intro m ctx u h
    simp only [buildM] at h
    rcases andE_err h with himp | ⟨a, _, h⟩
    · exact impGo_err _ _ _ (fun m' c u' h' => ih m' c u' h') _ _ _ u himp
    · rcases andE_err h with hprov | ⟨b, _, h⟩
      · exact providerGo_unres cfg (f + 1) _ _ _ u hprov
      · rcases andE_err h with hcli | ⟨c, _, h⟩
        · exact clientGo_unres cfg (f + 1) _ _ _ u hcli
        · simp at h

/-- Counting distributes over trace concatenation. -/
theorem builtCount_append (mid : Nat) (tr es : List Event) :
    builtCount mid (tr ++ es) = builtCount mid tr + builtCount mid es :=
  List.countP_append _ _ _

/-- A construction event is not a module-build event. -/
theorem builtCount_constructed (mid : Nat) (t : Ty) :
    builtCount mid [Event.constructed t] = 0 := by
  simp [builtCount, List.countP_cons]

/-- A provided-value event is not a module-build event. -/
theorem builtCount_providedVal (mid : Nat) (t : Ty) :
    builtCount mid [Event.providedVal t] = 0 := by
  simp [builtCount, List.countP_cons]

/-- Building a different module does not count. -/
theorem builtCount_built_ne (mid x : Nat) (h : x ≠ mid) :
    builtCount mid [Event.built x] = 0 := by
  simp [builtCount, List.countP_cons, h]

/-- Memo lookup after inserting a key. -/
theorem lookupMemo_cons (M : List (Nat × ResolvedModule)) (x : Nat)
    (rm : ResolvedModule) (mid : Nat) :
    lookupMemo ((x, rm) :: M) mid =
      if x = mid then some rm else lookupMemo M mid := by
  simp [lookupMemo]

/-- Dependency resolution touches neither the module memo nor the
global graph, and performs no module builds, provided the single-token
step does not. -/
theorem resolveDeps_ctx
    (step : Graph → Ty → Ctx → Option (Except Err (Graph × Ctx × Nat)))
    (Hstep : ∀ g d c g' c' i, step g d c = some (.ok (g', c', i)) →
      c'.modules = c.modules ∧ c'.global = c.global ∧
      ∀ mid, builtCount mid c'.trace = builtCount mid c.trace) :
    ∀ (ds : List Ty) (g : Graph) (ctx : Ctx) (g₂ : Graph) (ctx₂ : Ctx),
      resolveDeps step ds g ctx = some (.ok (g₂, ctx₂)) →
      ctx₂.modules = ctx.modules ∧ ctx₂.global = ctx.global ∧
      ∀ mid, builtCount mid ctx₂.trace = builtCount mid ctx.trace := by
  intro ds
  induction ds with
  | nil =>
    intro g ctx g₂ ctx₂ h
    simp only [resolveDeps, Option.some.injEq, Except.ok.injEq, Prod.mk.injEq] at h
    obtain ⟨_, hc⟩ := h
    subst hc; exact ⟨rfl, rfl, fun _ => rfl⟩
  | cons d rest ih =>
    intro g ctx g₂ ctx₂ h
    simp only [resolveDeps] at h
    obtain ⟨a, hok, hrest⟩ := andE_ok h
    obtain ⟨h₁, h₂, h₃⟩ := Hstep g d ctx a.1 a.2.1 a.2.2 hok
    obtain ⟨h₄, h₅, h₆⟩ := ih a.1 a.2.1 g₂ ctx₂ hrest
    exact ⟨h₄.trans h₁, h₅.trans h₂, fun mid => (h₆ mid).trans (h₃ mid)⟩

/-- `resolve` touches neither the module memo nor the global graph and
performs no module builds. -/
theorem resolveF_ctx (cfg : Config) :
    ∀ (fuel : Nat) (g : Graph) (ss : List Graph) (seen : List Ty) (t : Ty)
      (ctx : Ctx) (g' : Graph) (ctx' : Ctx) (i : Nat),
      resolveF cfg fuel g ss seen t ctx = some (.ok (g', ctx', i)) →
      ctx'.modules = ctx.modules ∧ ctx'.global = ctx.global ∧
      ∀ mid, builtCount mid ctx'.trace = builtCount mid ctx.trace := by
  intro fuel
  induction fuel with
  | zero =>
    intro g ss seen t ctx g' ctx' i h
    simp [resolveF] at h
  | succ f ih =>
    intro g ss seen t ctx g' ctx' i h
    simp only [resolveF] at h
    cases hl : lookupG g t with
    | some j =>
      rw [hl] at h
      simp only [Option.some.injEq, Except.ok.injEq, Prod.mk.injEq] at h
      obtain ⟨_, hc, _⟩ := h
      subst hc; exact ⟨rfl, rfl, fun _ => rfl⟩
    | none =>
      rw [hl] at h
      cases hs : searchAll ss t with
      | some j =>
        rw [hs] at h
        simp only [Option.some.injEq, Except.ok.injEq, Prod.mk.injEq] at h
        obtain ⟨_, hc, _⟩ := h
        subst hc; exact ⟨rfl, rfl, fun _ => rfl⟩
      | none =>
        rw [hs] at h
        by_cases hseen : t ∈ seen
        · simp [hseen] at h
        · simp only [if_neg hseen] at h
          cases hc : cfg.contract t with
          | none => rw [hc] at h; simp at h
          | some deps =>
            rw [hc] at h
            obtain ⟨a, hdeps, ha⟩ := andE_ok h
            simp only [Option.some.injEq, Except.ok.injEq, Prod.mk.injEq] at ha
            obtain ⟨_, hctx, _⟩ := ha
            subst hctx
            obtain ⟨h₁, h₂, h₃⟩ := resolveDeps_ctx _
              (fun g₁ d c g₂ c₂ i₂ h₁ => ih g₁ ss (t :: seen) d c g₂ c₂ i₂ h₁)
              deps g ctx a.1 a.2 hdeps
            refine ⟨h₁, h₂, fun mid => ?_⟩
            show builtCount mid (a.2.trace ++ [Event.constructed t]) = builtCount mid ctx.trace
            rw [builtCount_append, builtCount_constructed, h₃ mid]
            omega

/-- Phase 2 touches neither the module memo nor the global graph and
performs no module builds. -/
theorem valGo_ctx :
    ∀ (ts : List Ty) (r : ResolvedModule) (ctx : Ctx),
      (valGo ts r ctx).2.modules = ctx.modules ∧
      (valGo ts r ctx).2.global = ctx.global ∧
      ∀ mid, builtCount mid (valGo ts r ctx).2.trace = builtCount mid ctx.trace := by
  intro ts
  induction ts with
  | nil => intro r ctx; exact ⟨rfl, rfl, fun _ => rfl⟩
  | cons t rest ih =>
    intro r ctx
    obtain ⟨h₁, h₂, h₃⟩ := ih
      (.mk ((Ty.arc t, ctx.cnt) :: r.graph) r.imports r.graphed_exports r.clients)
      { ctx with cnt := ctx.cnt + 1, trace := ctx.trace ++ [Event.providedVal t] }
    refine ⟨h₁, h₂, fun mid => ?_⟩
    simp only [valGo]
    rw [h₃ mid]
    show builtCount mid (ctx.trace ++ [Event.providedVal t]) = builtCount mid ctx.trace
    rw [builtCount_append, builtCount_providedVal]
    omega

/-- Phase 3 touches neither the module memo nor the global graph and
performs no module builds. -/
theorem providerGo_ctx (cfg : Config) (fuel : Nat) :
    ∀ (ts : List Ty) (r : ResolvedModule) (ctx : Ctx) (r' : ResolvedModule) (ctx' : Ctx),
      providerGo cfg fuel ts r ctx = some (.ok (r', ctx')) →
      ctx'.modules = ctx.modules ∧ ctx'.global = ctx.global ∧
      ∀ mid, builtCount mid ctx'.trace = builtCount mid ctx.trace := by
  intro ts
  induction ts with
  | nil =>
    intro r ctx r' ctx' h
    simp only [providerGo, Option.some.injEq, Except.ok.injEq, Prod.mk.injEq] at h
    obtain ⟨_, hc⟩ := h
    subst hc; exact ⟨rfl, rfl, fun _ => rfl⟩
  | cons t rest ih =>
    intro r ctx r' ctx' h
    simp only [providerGo] at h
    obtain ⟨a, hok, hrest⟩ := andE_ok h
    obtain ⟨h₁, h₂, h₃⟩ := resolveF_ctx cfg fuel _ _ _ _ _ _ _ _ hok
    obtain ⟨h₄, h₅, h₆⟩ := ih _ _ _ _ hrest
    exact ⟨h₄.trans h₁, h₅.trans h₂, fun mid => (h₆ mid).trans (h₃ mid)⟩

/-- Phase 4 touches neither the module memo nor the global graph and
performs no module builds. -/
theorem clientGo_ctx (cfg : Config) (fuel : Nat) :
    ∀ (ts : List Ty) (r : ResolvedModule) (ctx : Ctx) (r' : ResolvedModule) (ctx' : Ctx),
      clientGo cfg fuel ts r ctx = some (.ok (r', ctx')) →
      ctx'.modules = ctx.modules ∧ ctx'.global = ctx.global ∧
      ∀ mid, builtCount mid ctx'.trace = builtCount mid ctx.trace := by
  intro ts
  induction ts with
  | nil =>
    intro r ctx r' ctx' h
    simp only [clientGo, Option.some.injEq, Except.ok.injEq, Prod.mk.injEq] at h
    obtain ⟨_, hc⟩ := h
    subst hc; exact ⟨rfl, rfl, fun _ => rfl⟩
  | cons t rest ih =>
    intro r ctx r' ctx' h
    simp only [clientGo] at h
    obtain ⟨a, hok, hrest⟩ := andE_ok h
    obtain ⟨h₁, h₂, h₃⟩ := resolveF_ctx cfg fuel _ _ _ _ _ _ _ _ hok
    obtain ⟨h₄, h₅, h₆⟩ := ih _ _ _ _ hrest
    exact ⟨h₄.trans h₁, h₅.trans h₂, fun mid => (h₆ mid).trans (h₃ mid)⟩

/-- Phase 1 preserves memo membership of `mid` and performs no further
build of `mid` once the memo holds it, provided the recursive module
build does the same. -/
theorem impGo_mono (step : ModuleB → Ctx → Option (Except Err (ResolvedModule × Ctx)))
    (factory : Nat → ModuleB) (mid : Nat)
    (Hstep : ∀ m c r' c', (lookupMemo c.modules mid).isSome = true →
      step m c = some (.ok (r', c')) →
      (lookupMemo c'.modules mid).isSome = true ∧
      builtCount mid c'.trace = builtCount mid c.trace) :
    ∀ (mids : List Nat) (r : ResolvedModule) (ctx : Ctx)
      (r' : ResolvedModule) (ctx' : Ctx),
      (lookupMemo ctx.modules mid).isSome = true →
      impGo step factory mids r ctx = some (.ok (r', ctx')) →
      (lookupMemo ctx'.modules mid).isSome = true ∧
      builtCount mid ctx'.trace = builtCount mid ctx.trace := by
  intro mids
  induction mids with
  | nil =>
    intro r ctx r' ctx' hpres h
    simp only [impGo, Option.some.injEq, Except.ok.injEq, Prod.mk.injEq] at h
    obtain ⟨_, hc⟩ := h
    subst hc; exact ⟨hpres, rfl⟩
  | cons x rest ih =>
    intro r ctx r' ctx' hpres h
    simp only [impGo] at h
    cases hm : lookupMemo ctx.modules x with
    | some rm =>
      rw [hm] at h
      exact ih _ _ _ _ hpres h
    | none =>
      rw [hm] at h
      have hxm : x ≠ mid := by
        intro he
        rw [he] at hm
        rw [hm] at hpres
        simp at hpres
      obtain ⟨a, hstep, hrest⟩ := andE_ok h
      obtain ⟨hp₂, hb₂⟩ := Hstep _ _ a.1 a.2 hpres hstep
      have hp₃ : (lookupMemo ((x, a.1) :: a.2.modules) mid).isSome = true := by
        rw [lookupMemo_cons]
        simpa [hxm] using hp₂
      obtain ⟨hp₄, hb₄⟩ := ih _ _ _ _ hp₃ hrest
      refine ⟨hp₄, ?_⟩
      rw [hb₄]
      show builtCount mid (a.2.trace ++ [Event.built x]) = builtCount mid ctx.trace
      rw [builtCount_append, builtCount_built_ne mid x hxm, hb₂]
      omega

/-- Once the memo holds a resolved module for `mid`, no later build step
of the same assembly executes `mid`'s factory build again, and the memo
keeps holding `mid`. -/
theorem buildM_mono (cfg : Config) (mid : Nat) :
    ∀ (fuel : Nat) (m : ModuleB) (ctx : Ctx) (r : ResolvedModule) (ctx' : Ctx),
      (lookupMemo ctx.modules mid).isSome = true →
      buildM cfg fuel m ctx = some (.ok (r, ctx')) →
      (lookupMemo ctx'.modules mid).isSome = true ∧
      builtCount mid ctx'.trace = builtCount mid ctx.trace := by
  intro fuel
  induction fuel with
  | zero =>
    intro m ctx r ctx' hpres h
    simp [buildM] at h
  | succ f ih =>
    intro m ctx r ctx' hpres h
    simp only [buildM] at h
    obtain ⟨a, ha, h⟩ := andE_ok h
    obtain ⟨b, hb, h⟩ := andE_ok h
    obtain ⟨c, hc, h⟩ := andE_ok h
    simp only [Option.some.injEq, Except.ok.injEq, Prod.mk.injEq] at h
    obtain ⟨_, hctx⟩ := h
    subst hctx
    obtain ⟨hpA, hbA⟩ := impGo_mono _ cfg.factory mid
      (fun m' c' r₂ c₂ hp hs => ih m' c' r₂ c₂ hp hs) m.imports
      ResolvedModule.empty ctx a.1 a.2 hpres ha
    obtain ⟨hv₁, _, hv₃⟩ := valGo_ctx m.provider_vals a.1 a.2
    obtain ⟨hq₁, _, hq₃⟩ := providerGo_ctx cfg (f + 1) _ _ _ _ _ hb
    obtain ⟨hr₁, _, hr₃⟩ := clientGo_ctx cfg (f + 1) _ _ _ _ _ hc
    constructor
    · show (lookupMemo c.2.modules mid).isSome = true
      rw [hr₁, hq₁, hv₁]
      exact hpA
    · show builtCount mid c.2.trace = builtCount mid ctx.trace
      rw [hr₃ mid, hq₃ mid, hv₃ mid, hbA]

/-- C1: at build time an import is served from the context's memo when
present (reused as-is, context untouched); otherwise the module is built
via its factory and registered in the memo before reuse; once the memo
holds a module type, no later step of the assembly builds it again; and
in the concrete diamond (`B` and `C` both import `A`, a parent imports
`B` then `C`) module `A` is built exactly once and `B`'s and `C`'s
imported `ResolvedModule` for `A` is the same shared instance. -/
theorem c1_memo_dedup :
    (∀ (cfg : Config) (mid : Nat) (fuel : Nat) (m : ModuleB) (ctx : Ctx)
        (r : ResolvedModule) (ctx' : Ctx),
      (lookupMemo ctx.modules mid).isSome = true →
      buildM cfg fuel m ctx = some (.ok (r, ctx')) →
      (lookupMemo ctx'.modules mid).isSome = true ∧
      builtCount mid ctx'.trace = builtCount mid ctx.trace) ∧
    (∀ (step : ModuleB → Ctx → Option (Except Err (ResolvedModule × Ctx)))
        (factory : Nat → ModuleB) (mid : Nat) (rest : List Nat)
        (r : ResolvedModule) (ctx : Ctx) (rm : ResolvedModule),
      lookupMemo ctx.modules mid = some rm →
      impGo step factory (mid :: rest) r ctx =
        impGo step factory rest
          (.mk r.graph (r.imports ++ [rm]) r.graphed_exports r.clients) ctx) ∧
    (∀ (step : ModuleB → Ctx → Option (Except Err (ResolvedModule × Ctx)))
        (factory : Nat → ModuleB) (mid : Nat) (rest : List Nat)
        (r : ResolvedModule) (ctx : Ctx) (a : ResolvedModule × Ctx),
      lookupMemo ctx.modules mid = none →
      step (factory mid) ctx = some (.ok a) →
      impGo step factory (mid :: rest) r ctx =
        impGo step factory rest
          (.mk r.graph (r.imports ++ [a.1]) r.graphed_exports r.clients)
          { a.2 with modules := (mid, a.1) :: a.2.modules,
                     trace := a.2.trace ++ [Event.built mid] }) ∧
    ((resCtx (buildM diamondCfg 10 diamondRoot ctx0)).map
        (fun c => builtCount 0 c.trace) = some 1 ∧
      ((resRM (buildM diamondCfg 10 diamondRoot ctx0)).bind fun r =>
        (r.imports.get? 0).bind fun rb => rb.imports.get? 0) =
      ((resRM (buildM diamondCfg 10 diamondRoot ctx0)).bind fun r =>
        (r.imports.get? 1).bind fun rc => rc.imports.get? 0) ∧
      ((resRM (buildM diamondCfg 10 diamondRoot ctx0)).bind fun r =>
        (r.imports.get? 0).bind fun rb => rb.imports.get? 0).isSome = true) := by
  refine ⟨?_, ?_, ?_, rfl, rfl, rfl⟩
  · intro cfg mid fuel m ctx r ctx' hp hb
    exact buildM_mono cfg mid fuel m ctx r ctx' hp hb
  · intro step factory mid rest r ctx rm h
    simp only [impGo, h]
  · intro step factory mid rest r ctx a h₁ h₂
    simp only [impGo, h₁, h₂, andE]

/-- Witness for C1 at a concrete input: with module 7 memoized, a build
leaves it memoized and executes no build of it. -/
theorem c1_w :
    (lookupMemo ([(7, ResolvedModule.empty)] : List (Nat × ResolvedModule)) 7).isSome
      = true ∧
    buildM diamondCfg 1 ModuleB.new
      { global := [], modules := [(7, ResolvedModule.empty)], cnt := 0, trace := [] } =
      some (.ok (ResolvedModule.mk [] [] [] [],
        { global := [], modules := [(7, ResolvedModule.empty)], cnt := 0, trace := [] })) ∧
    ((lookupMemo ([(7, ResolvedModule.empty)] : List (Nat × ResolvedModule)) 7).isSome
        = true ∧
      builtCount 7 ([] : List Event) = builtCount 7 ([] : List Event)) :=
  ⟨rfl, rfl, c1_memo_dedup.1 diamondCfg 7 1 ModuleB.new
    { global := [], modules := [(7, ResolvedModule.empty)], cnt := 0, trace := [] }
    (ResolvedModule.mk [] [] [] [])
    { global := [], modules := [(7, ResolvedModule.empty)], cnt := 0, trace := [] }
    rfl rfl⟩

/-- C5: an `UnresolvedCapability` failure names a capability with no
construction contract and no pre-provided instance in the consulted
graph or any search graph; the failure surfaces to the caller of
`build`; and in the concrete transitive scenario (`T` requires `V`
requires `U`, with `U` provided nowhere) the build fails naming `U`,
which is not `T` — `T` itself has a contract, so it can never be the
named token. -/
theorem c5_unresolved_names_missing :
    (∀ (cfg : Config) (fuel : Nat) (g : Graph) (ss : List Graph) (seen : List Ty)
        (t : Ty) (ctx : Ctx) (u : Ty),
      resolveF cfg fuel g ss seen t ctx = some (.error (.unresolvedCapability u)) →
      cfg.contract u = none ∧ lookupG g u = none ∧ searchAll ss u = none) ∧
    (∀ (cfg : Config) (fuel : Nat) (m : ModuleB) (ctx : Ctx) (u : Ty),
      buildM cfg fuel m ctx = some (.error (.unresolvedCapability u)) →
      cfg.contract u = none) ∧
    (buildM chainCfg 10 (ModuleB.new.provide (Ty.base 1)) ctx0 =
        some (.error (.unresolvedCapability (Ty.arc (Ty.base 3)))) ∧
      Ty.arc (Ty.base 3) ≠ Ty.arc (Ty.base 1) ∧
      chainCfg.contract (Ty.arc (Ty.base 1)) ≠ none) := by
  refine ⟨fun cfg => resolveF_unres cfg, fun cfg => buildM_unres cfg, rfl, ?_, ?_⟩
  · decide
  · decide

/-- Witness for C5 at a concrete input: the surfaced failure names `U`,
a capability with no contract. -/
theorem c5_w :
    buildM chainCfg 10 (ModuleB.new.provide (Ty.base 1)) ctx0 =
      some (.error (.unresolvedCapability (Ty.arc (Ty.base 3)))) ∧
    chainCfg.contract (Ty.arc (Ty.base 3)) = none :=
  ⟨rfl, c5_unresolved_names_missing.2.1 chainCfg 10
    (ModuleB.new.provide (Ty.base 1)) ctx0 (Ty.arc (Ty.base 3)) rfl⟩

/-- C2: `build` consumes the builder and runs exactly four phases in
order — imports, provided values, declared-type providers, clients —
and only after all four does it compute the exported subgraph via
`filter_by` over the marked export tokens; moreover phase 2 and phase 3
neither attach imports nor resolve clients, phase 4 attaches no imports,
and the exported subgraph is computed from the final module graph. -/
theorem c2_build_four_phases :
    (∀ (cfg : Config) (fuel : Nat) (m : ModuleB) (ctx : Ctx),
      buildM cfg (fuel + 1) m ctx =
        andE (impGo (fun m' c => buildM cfg fuel m' c) cfg.factory m.imports
            ResolvedModule.empty ctx)
          (fun a =>
            andE (providerGo cfg (fuel + 1) m.providers
                (valGo m.provider_vals a.1 a.2).1 (valGo m.provider_vals a.1 a.2).2)
              (fun b =>
                andE (clientGo cfg (fuel + 1) m.clients b.1 b.2)
                  (fun c => some (.ok (.mk c.1.graph c.1.imports
                    (filterBy c.1.graph m.exports) c.1.clients, c.2)))))) ∧
    (∀ (cfg : Config) (fuel : Nat) (ts : List Ty) (r : ResolvedModule) (ctx : Ctx)
        (r' : ResolvedModule) (ctx' : Ctx),
      providerGo cfg fuel ts r ctx = some (.ok (r', ctx')) →
      r'.imports = r.imports ∧ r'.clients = r.clients) ∧
    (∀ (cfg : Config) (fuel : Nat) (ts : List Ty) (r : ResolvedModule) (ctx : Ctx)
        (r' : ResolvedModule) (ctx' : Ctx),
      clientGo cfg fuel ts r ctx = some (.ok (r', ctx')) →
      r'.imports = r.imports) ∧
    (∀ (ts : List Ty) (r : ResolvedModule) (ctx : Ctx),
      (valGo ts r ctx).1.imports = r.imports ∧ (valGo ts r ctx).1.clients = r.clients) ∧
    (∀ (cfg : Config) (fuel : Nat) (m : ModuleB) (ctx : Ctx)
        (r : ResolvedModule) (ctx' : Ctx),
      buildM cfg fuel m ctx = some (.ok (r, ctx')) →
      r.graphed_exports = filterBy r.graph m.exports) := by
  refine ⟨fun cfg fuel m ctx => rfl, ?_, ?_, ?_, build_graphed_exports⟩
  · intro cfg fuel ts r ctx r' ctx' h
    have := providerGo_rm cfg fuel ts r ctx r' ctx' h
    exact ⟨this.1, this.2.1⟩
  · intro cfg fuel ts r ctx r' ctx' h
    exact (clientGo_rm cfg fuel ts r ctx r' ctx' h).1
  · intro ts r ctx
    have := valGo_rm ts r ctx
    exact ⟨this.1, this.2.1⟩

/-- Witness for C2 at a concrete input: a one-provider phase 3 run and a
concrete successful build. -/
theorem c2_w :
    providerGo dupCfg 2 [Ty.base 1] ResolvedModule.empty ctx0 =
      some (.ok (ResolvedModule.mk [(Ty.arc (Ty.base 1), 0)] [] [] [],
        { global := [], modules := [], cnt := 1,
          trace := [Event.constructed (Ty.arc (Ty.base 1))] })) ∧
    (ResolvedModule.mk [(Ty.arc (Ty.base 1), 0)] [] [] []).imports =
      ResolvedModule.empty.imports ∧
    (ResolvedModule.mk [(Ty.arc (Ty.base 1), 0)] [] [] []).clients =
      ResolvedModule.empty.clients := by
  have h : providerGo dupCfg 2 [Ty.base 1] ResolvedModule.empty ctx0 =
      some (.ok (ResolvedModule.mk [(Ty.arc (Ty.base 1), 0)] [] [] [],
        { global := [], modules := [], cnt := 1,
          trace := [Event.constructed (Ty.arc (Ty.base 1))] })) := rfl
  have hc := c2_build_four_phases.2.1 dupCfg 2 [Ty.base 1] ResolvedModule.empty ctx0
    (ResolvedModule.mk [(Ty.arc (Ty.base 1), 0)] [] [] [])
    { global := [], modules := [], cnt := 1,
      trace := [Event.constructed (Ty.arc (Ty.base 1))] } h
  exact ⟨h, hc.1, hc.2⟩

/-- Witness for C3 at a concrete input: a token present in the module's
own graph is returned from there. -/
theorem c3_w :
    lookupG [(tA, 5)] tA = some 5 ∧
    resolveF diamondCfg 1 [(tA, 5)] [] [] tA ctx0 =
      some (.ok ([(tA, 5)], ctx0, 5)) :=
  ⟨rfl, c3_search_order.1 diamondCfg 0 [(tA, 5)] [] [] tA ctx0 5 rfl⟩

/-- C4: `export` and `export_val` only mark a token — every other field
of the builder is unchanged; the exported subgraph contains exactly the
entries of the module's own graph whose token is in the export set,
sharing the same instance ids; and a token not marked for export is
absent from the exported subgraph produced by `build`. -/
theorem c4_export_frame_and_visibility :
    (∀ (m : ModuleB) (t : Ty),
      (m.exportT t).imports = m.imports ∧ (m.exportT t).providers = m.providers ∧
      (m.exportT t).provider_vals = m.provider_vals ∧
      (m.exportT t).clients = m.clients ∧ (m.exportT t).tokens = m.tokens ∧
      (m.export_val t).imports = m.imports ∧ (m.export_val t).providers = m.providers ∧
      (m.export_val t).provider_vals = m.provider_vals ∧
      (m.export_val t).clients = m.clients ∧ (m.export_val t).tokens = m.tokens) ∧
    (∀ (g : Graph) (s : List Ty) (tok : Ty),
      lookupG (filterBy g s) tok = if tok ∈ s then lookupG g tok else none) ∧
    (∀ (cfg : Config) (fuel : Nat) (m : ModuleB) (ctx : Ctx)
        (r : ResolvedModule) (ctx' : Ctx),
      buildM cfg fuel m ctx = some (.ok (r, ctx')) →
      r.graphed_exports = filterBy r.graph m.exports ∧
      ∀ tok, tok ∉ m.exports → lookupG r.graphed_exports tok = none) := by
  refine ⟨?_, lookupG_filterBy, ?_⟩
  · intro m t
    exact ⟨rfl, rfl, rfl, rfl, rfl, rfl, rfl, rfl, rfl, rfl⟩
  · intro cfg fuel m ctx r ctx' h
    have he := build_graphed_exports cfg fuel m ctx r ctx' h
    refine ⟨he, ?_⟩
    intro tok htok
    rw [he, lookupG_filterBy]
    simp [htok]

/-- Witness for C4 at a concrete input: a build whose module graph holds
a node that was never exported, invisible in the exported subgraph. -/
theorem c4_w :
    buildM dupCfg 3 dupModule ctx0 =
      some (.ok (ResolvedModule.mk [(Ty.arc (Ty.base 1), 0)] [] [] [],
        { global := [], modules := [], cnt := 1,
          trace := [Event.constructed (Ty.arc (Ty.base 1))] })) ∧
    (ResolvedModule.mk [(Ty.arc (Ty.base 1), 0)] [] [] []).graphed_exports =
      filterBy (ResolvedModule.mk [(Ty.arc (Ty.base 1), 0)] [] [] []).graph
        dupModule.exports ∧
    lookupG (ResolvedModule.mk [(Ty.arc (Ty.base 1), 0)] [] [] []).graphed_exports
      (Ty.arc (Ty.base 1)) = none := by
  have h : buildM dupCfg 3 dupModule ctx0 =
      some (.ok (ResolvedModule.mk [(Ty.arc (Ty.base 1), 0)] [] [] [],
        { global := [], modules := [], cnt := 1,
          trace := [Event.constructed (Ty.arc (Ty.base 1))] })) := rfl
  have hc := c4_export_frame_and_visibility.2.2 dupCfg 3 dupModule ctx0
    (ResolvedModule.mk [(Ty.arc (Ty.base 1), 0)] [] [] [])
    { global := [], modules := [], cnt := 1,
      trace := [Event.constructed (Ty.arc (Ty.base 1))] } h
  exact ⟨h, hc.1, hc.2 (Ty.arc (Ty.base 1))
    (by simp [dupModule, ModuleB.provide, ModuleB.new])⟩

/-- Witness for C7 at a concrete input: a constructed token re-resolves
to the same shared instance against the updated graph. -/
theorem c7_w :
    resolveF dupCfg 2 [] [[]] [] (Ty.arc (Ty.base 1)) ctx0 =
      some (.ok ([(Ty.arc (Ty.base 1), 0)],
        { global := [], modules := [], cnt := 1,
          trace := [Event.constructed (Ty.arc (Ty.base 1))] }, 0)) ∧
    resolveF dupCfg 1 [(Ty.arc (Ty.base 1), 0)] [[]] [] (Ty.arc (Ty.base 1)) ctx0 =
      some (.ok ([(Ty.arc (Ty.base 1), 0)], ctx0, 0)) :=
  ⟨rfl, c7_singleton_per_graph dupCfg 2 [] [[]] [] (Ty.arc (Ty.base 1)) ctx0
    [(Ty.arc (Ty.base 1), 0)]
    { global := [], modules := [], cnt := 1,
      trace := [Event.constructed (Ty.arc (Ty.base 1))] } 0 rfl 0 [] ctx0⟩

/-- C8: after a successful build the resolved module's client list holds
exactly one resolved instance per client declaration, appended in
client-declaration order, and this list is what the resolved module
exposes. -/
theorem c8_clients_one_per_declaration :
    (∀ (cfg : Config) (fuel : Nat) (m : ModuleB) (ctx : Ctx)
        (r : ResolvedModule) (ctx' : Ctx),
      buildM cfg fuel m ctx = some (.ok (r, ctx')) →
      r.clients.length = m.clients.length) ∧
    (∀ (cfg : Config) (fuel : Nat) (ts : List Ty) (r : ResolvedModule) (ctx : Ctx)
        (r' : ResolvedModule) (ctx' : Ctx),
      clientGo cfg fuel ts r ctx = some (.ok (r', ctx')) →
      ∃ is, r'.clients = r.clients ++ is ∧ is.length = ts.length) := by
  constructor
  · exact build_clients_len
  · intro cfg fuel ts r ctx r' ctx' h
    exact (clientGo_rm cfg fuel ts r ctx r' ctx' h).2.2

/-- Witness for C8 at a concrete input: one client declaration yields
one resolved client. -/
theorem c8_w :
    buildM dupCfg 3 (ModuleB.new.client (Ty.base 1)) ctx0 =
      some (.ok (ResolvedModule.mk [(Ty.arc (Ty.base 1), 0)] [] [] [0],
        { global := [], modules := [], cnt := 1,
          trace := [Event.constructed (Ty.arc (Ty.base 1))] })) ∧
    (ResolvedModule.mk [(Ty.arc (Ty.base 1), 0)] [] [] [0]).clients.length =
      (ModuleB.new.client (Ty.base 1)).clients.length := by
  have h : buildM dupCfg 3 (ModuleB.new.client (Ty.base 1)) ctx0 =
      some (.ok (ResolvedModule.mk [(Ty.arc (Ty.base 1), 0)] [] [] [0],
        { global := [], modules := [], cnt := 1,
          trace := [Event.constructed (Ty.arc (Ty.base 1))] })) := rfl
  exact ⟨h, c8_clients_one_per_declaration.1 dupCfg 3 (ModuleB.new.client (Ty.base 1))
    ctx0 (ResolvedModule.mk [(Ty.arc (Ty.base 1), 0)] [] [] [0])
    { global := [], modules := [], cnt := 1,
      trace := [Event.constructed (Ty.arc (Ty.base 1))] } h⟩

end Sept
